import Mathlib

/-!
# Verification of the storage-poc backends

Shallow embedding of the storage backends of the repository:
capacity abstraction, the fallback composites (`FallbackElement`,
`FallbackRange`), the mutually-exclusive alternative composite
(`alternative::SingleElement`), the allocator-backed range storage
(`AllocStorage`), and the inline storages (`TrackingElement`,
`NonTrackingElement`).  Machine integers (`usize`) are modelled as `Nat`
with explicit saturation at `2^64 - 1`; fallible operations return
`Option`/`Except`; panics are modelled by an explicit `PResult.panicked`
constructor.
-/

/-- Result of an operation that may panic (models a Rust `panic!`). -/
inductive PResult (α : Type u) : Type u
  | panicked : PResult α
  | ok : α → PResult α
deriving DecidableEq

/-- `usize::MAX` on a 64-bit target. -/
def USIZE_MAX : Nat := 2 ^ 64 - 1

/-- `usize::saturating_add`. -/
def usizeSatAdd (a b : Nat) : Nat := min (a + b) USIZE_MAX

/-- The `Capacity` trait of `traits.rs`: an integer-like type convertible
to and from `usize`, with a maximum value.  `fromUsize` returns `none` when
the value does not fit the capacity type. -/
structure CapOps (C : Type) where
  intoUsize : C → Nat
  fromUsize : Nat → Option C
  max : C

/-- A `u8`-like capacity type (values `0..=255`), used to instantiate
composites at concrete capacity types. -/
def capU8 : CapOps Nat :=
  { intoUsize := fun n => n
    fromUsize := fun n => if n ≤ 255 then some n else none
    max := 255 }

/-- A `usize`-like capacity type. -/
def capUsize : CapOps Nat :=
  { intoUsize := fun n => n
    fromUsize := fun n => if n ≤ USIZE_MAX then some n else none
    max := USIZE_MAX }

/-- A range-storage backend (the `RangeStorage` trait), as a state machine:
`σ` is the backend's state, `η` its handle type, `C` its capacity type and
`T` the element type.  Every operation takes `&mut self`, so each returns
the successor state together with an optional handle (`none` = `AllocError`).
`get` yields the view of a handle as a buffer of possibly-uninitialized
elements, and `write` models writing through that view. -/
structure RangeBE (σ η C T : Type) where
  allocate : σ → C → σ × Option η
  try_grow : σ → η → C → σ × Option η
  try_shrink : σ → η → C → σ × Option η
  deallocate : σ → η → σ
  get : σ → η → List (Option T)
  write : σ → η → List (Option T) → σ

/-- `FallbackRangeHandle`: a handle tagged with the backend that produced it. -/
inductive FbHandle (ηF ηS : Type) : Type
  | first : ηF → FbHandle ηF ηS
  | second : ηS → FbHandle ηF ηS
deriving DecidableEq

/-- `fallback_range.rs::into_first`: converts a composite capacity (the
second backend's capacity type) to the first backend's capacity type,
failing with `AllocError` on overflow. -/
def into_first (capF : CapOps CF) (capS : CapOps CS) (c : CS) : Option CF :=
  capF.fromUsize (capS.intoUsize c)

/-- `fallback_range.rs::transfer`: copy `min(from.len, to.len)` elements
from the source view into the destination view; the remainder of the
destination keeps its previous content. -/
def transfer (fromV toV : List (Option T)) : List (Option T) :=
  fromV.take (min fromV.length toV.length) ++ toV.drop (min fromV.length toV.length)

/-- `FallbackRange::maximum_capacity`: saturating sum of both backends'
maxima; if the sum does not fit the composite capacity type, the *second
backend's* maximum is returned. -/
def FallbackRange.maximum_capacity (capF : CapOps CF) (capS : CapOps CS)
    (firstMax : CF) (secondMax : CS) : CS :=
  match capS.fromUsize (usizeSatAdd (capF.intoUsize firstMax) (capS.intoUsize secondMax)) with
  | some result => result
  | none => secondMax

/-- The value the specification claims for `maximum_capacity`: the
saturating sum of both backends' maxima clamped to the maximum of the
composite's own capacity type (expressed in universal `usize` units).
This follows the spec's words, for comparison with the source definition. -/
def FallbackRange.maximum_capacity_per_claim (capF : CapOps CF) (capS : CapOps CS)
    (firstMax : CF) (secondMax : CS) : Nat :=
  min (usizeSatAdd (capF.intoUsize firstMax) (capS.intoUsize secondMax))
    (capS.intoUsize capS.max)

/-- `FallbackRange::allocate`: try the first backend at the converted
capacity; on any failure (conversion or allocation) allocate the full
requested capacity from the second backend. -/
def FallbackRange.allocate (capF : CapOps CF) (capS : CapOps CS)
    (F : RangeBE σF ηF CF T) (S : RangeBE σS ηS CS T)
    (st : σF × σS) (c : CS) : (σF × σS) × Option (FbHandle ηF ηS) :=
  match into_first capF capS c with
  | some cf =>
    match F.allocate st.1 cf with
    | (f', some hf) => ((f', st.2), some (.first hf))
    | (f', none) =>
      match S.allocate st.2 c with
      | (s', r) => ((f', s'), r.map .second)
  | none =>
    match S.allocate st.2 c with
    | (s', r) => ((st.1, s'), r.map .second)

/-- `FallbackRange::try_grow`.  On a First-tagged handle: convert the
capacity and try to grow the first backend in place; on failure, allocate
the full new capacity from the second backend, copy
`min(old_length, new_length)` elements across, deallocate the first slot
and return a Second-tagged handle.  On a Second-tagged handle: grow the
second backend in place. -/
def FallbackRange.try_grow (capF : CapOps CF) (capS : CapOps CS)
    (F : RangeBE σF ηF CF T) (S : RangeBE σS ηS CS T)
    (st : σF × σS) (h : FbHandle ηF ηS) (c : CS) :
    (σF × σS) × Option (FbHandle ηF ηS) :=
  match h with
  | .first hf =>
    let attempt : σF × Option ηF :=
      match into_first capF capS c with
      | some cf => F.try_grow st.1 hf cf
      | none => (st.1, none)
    match attempt with
    | (f', some hf') => ((f', st.2), some (.first hf'))
    | (f', none) =>
      match S.allocate st.2 c with
      | (s', none) => ((f', s'), none)
      | (s', some hs) =>
        let s'' := S.write s' hs (transfer (F.get f' hf) (S.get s' hs))
        ((F.deallocate f' hf, s''), some (.second hs))
  | .second hs =>
    match S.try_grow st.2 hs c with
    | (s', r) => ((st.1, s'), r.map .second)

/-- `FallbackRange::try_shrink`.  On a First-tagged handle: shrink the
first backend in place (failing if the capacity does not convert).  On a
Second-tagged handle: if the new capacity converts to the first backend's
capacity type and the first backend can allocate it, migrate the data back
(copying `min` of the two view lengths) and free the second slot;
otherwise shrink the second backend in place. -/
def FallbackRange.try_shrink (capF : CapOps CF) (capS : CapOps CS)
    (F : RangeBE σF ηF CF T) (S : RangeBE σS ηS CS T)
    (st : σF × σS) (h : FbHandle ηF ηS) (c : CS) :
    (σF × σS) × Option (FbHandle ηF ηS) :=
  match h with
  | .first hf =>
    match into_first capF capS c with
    | none => (st, none)
    | some cf =>
      match F.try_shrink st.1 hf cf with
      | (f', r) => ((f', st.2), r.map .first)
  | .second hs =>
    match into_first capF capS c with
    | none =>
      match S.try_shrink st.2 hs c with
      | (s', r) => ((st.1, s'), r.map .second)
    | some cf =>
      match F.allocate st.1 cf with
      | (f', some hf) =>
        let f'' := F.write f' hf (transfer (S.get st.2 hs) (F.get f' hf))
        ((f'', S.deallocate st.2 hs), some (.first hf))
      | (f', none) =>
        match S.try_shrink st.2 hs c with
        | (s', r) => ((f', s'), r.map .second)

/-- An element-storage backend (the `ElementStorage` trait), as a state
machine: `σ` is the backend's state, `η` its handle type, `M` the metadata
type, `T` the element type and `ν` the type of views returned by `get`.
`create` returns `Except.error v` on failure, carrying the value back to
the caller; `allocate` returns `none` on `AllocError`. -/
structure ElemBE (σ η M T ν : Type) where
  allocate : σ → M → σ × Option η
  create : σ → T → σ × Except T η
  get : σ → η → ν
  coerce : σ → η → η
  deallocate : σ → η → σ

/-- `FallbackElementHandle`: a handle tagged with the backend that
produced it. -/
inductive FbeHandle (ηF ηS : Type) : Type
  | first : ηF → FbeHandle ηF ηS
  | second : ηS → FbeHandle ηF ηS
deriving DecidableEq

/-- `FallbackElement::create`: try the first backend; on failure retry the
returned value on the second backend; if that fails too, hand the value
back to the caller. -/
def FallbackElement.create (F : ElemBE σF ηF M T ν) (S : ElemBE σS ηS M T ν)
    (st : σF × σS) (v : T) : (σF × σS) × Except T (FbeHandle ηF ηS) :=
  match F.create st.1 v with
  | (f', .ok hf) => ((f', st.2), .ok (.first hf))
  | (f', .error v') =>
    match S.create st.2 v' with
    | (s', .ok hs) => ((f', s'), .ok (.second hs))
    | (s', .error v'') => ((f', s'), .error v'')

/-- `FallbackElement::allocate`: try the first backend, on failure fall
back to the second. -/
def FallbackElement.allocate (F : ElemBE σF ηF M T ν) (S : ElemBE σS ηS M T ν)
    (st : σF × σS) (m : M) : (σF × σS) × Option (FbeHandle ηF ηS) :=
  match F.allocate st.1 m with
  | (f', some hf) => ((f', st.2), some (.first hf))
  | (f', none) =>
    match S.allocate st.2 m with
    | (s', r) => ((f', s'), r.map .second)

/-- Modelled from the spec: the provided `ElementStorage::create` method of
`traits.rs` (not present under `src/`): compute the value's metadata,
`allocate`, and on success write the value into the slot; on failure return
the value unchanged to the caller. -/
def defaultCreate (allocate : σ → M → σ × Option η) (store : σ → η → T → σ)
    (metaOf : T → M) (st : σ) (v : T) : σ × Except T η :=
  match allocate st (metaOf v) with
  | (st', some h) => (store st' h v, .ok h)
  | (st', none) => (st', .error v)

/-- `alternative::Inner`: the three-state tag of the alternative composite.
`first`/`second` carry the live backend's state; `poisoned` marks an
interrupted transition. -/
inductive AltState (σF σS : Type) : Type
  | first : σF → AltState σF σS
  | second : σS → AltState σF σS
  | poisoned : AltState σF σS
deriving DecidableEq

/-- `SingleElementHandle` of the alternative composite.  The source uses an
untagged union; per the spec's design note the tagged sum is the faithful
model, and reading the wrong arm is a fatal programmer error. -/
inductive AltHandle (ηF ηS : Type) : Type
  | first : ηF → AltHandle ηF ηS
  | second : ηS → AltHandle ηF ηS
deriving DecidableEq

/-- Whether a composite state is the Second state. -/
def AltState.isSecond : AltState σF σS → Bool
  | .second _ => true
  | _ => false

/-- Whether a composite state is the Poisoned state. -/
def AltState.isPoisoned : AltState σF σS → Bool
  | .poisoned => true
  | _ => false

/-- Whether a handle is First-tagged. -/
def AltHandle.isFirst : AltHandle ηF ηS → Bool
  | .first _ => true
  | .second _ => false

/-- Whether a handle is Second-tagged. -/
def AltHandle.isSecond : AltHandle ηF ηS → Bool
  | .first _ => false
  | .second _ => true

/-- `alternative::SingleElement::allocate`.  From the First state, a
failure of the first backend commits the one-shot transition: a fresh
second backend (`freshS`, built from the stored builder — `alternative`'s
module file with `Inner::transform` is not under `src/`; modelled from the
spec: the transition consumes the builder-derived default to construct a
fresh Second backend, attempts the failed operation on it, and commits the
new state) is installed even when the retried allocation fails.  From the
Poisoned state every call panics. -/
def SingleElement.allocate (F : ElemBE σF ηF M T ν) (S : ElemBE σS ηS M T ν)
    (freshS : σS) (st : AltState σF σS) (m : M) :
    AltState σF σS × PResult (Option (AltHandle ηF ηS)) :=
  match st with
  | .first f =>
    match F.allocate f m with
    | (f', some hf) => (.first f', .ok (some (.first hf)))
    | (_, none) =>
      match S.allocate freshS m with
      | (s', r) => (.second s', .ok (r.map .second))
  | .second s =>
    match S.allocate s m with
    | (s', r) => (.second s', .ok (r.map .second))
  | .poisoned => (.poisoned, .panicked)

/-- `alternative::SingleElement::create`.  Mirrors `allocate`: the failure
of the first backend commits the transition to Second, and the value is
retried there; on a second failure the value is handed back while the
Second state remains committed. -/
def SingleElement.create (F : ElemBE σF ηF M T ν) (S : ElemBE σS ηS M T ν)
    (freshS : σS) (st : AltState σF σS) (v : T) :
    AltState σF σS × PResult (Except T (AltHandle ηF ηS)) :=
  match st with
  | .first f =>
    match F.create f v with
    | (f', .ok hf) => (.first f', .ok (.ok (.first hf)))
    | (_, .error v') =>
      match S.create freshS v' with
      | (s', .ok hs) => (.second s', .ok (.ok (.second hs)))
      | (s', .error v'') => (.second s', .ok (.error v''))
  | .second s =>
    match S.create s v with
    | (s', .ok hs) => (.second s', .ok (.ok (.second hs)))
    | (s', .error v'') => (.second s', .ok (.error v''))
  | .poisoned => (.poisoned, .panicked)

/-- `alternative::SingleElement::get`.  Panics on the Poisoned state; a
wrong-arm union read is undefined behavior in the source and a fatal
programmer error per the spec, modelled as a panic. -/
def SingleElement.get (F : ElemBE σF ηF M T ν) (S : ElemBE σS ηS M T ν)
    (st : AltState σF σS) (h : AltHandle ηF ηS) : PResult ν :=
  match st, h with
  | .first f, .first hf => .ok (F.get f hf)
  | .second s, .second hs => .ok (S.get s hs)
  | .poisoned, _ => .panicked
  | .first _, .second _ => .panicked
  | .second _, .first _ => .panicked

/-- `alternative::SingleElement::coerce`. -/
def SingleElement.coerce (F : ElemBE σF ηF M T ν) (S : ElemBE σS ηS M T ν)
    (st : AltState σF σS) (h : AltHandle ηF ηS) : PResult (AltHandle ηF ηS) :=
  match st, h with
  | .first f, .first hf => .ok (.first (F.coerce f hf))
  | .second s, .second hs => .ok (.second (S.coerce s hs))
  | .poisoned, _ => .panicked
  | .first _, .second _ => .panicked
  | .second _, .first _ => .panicked

/-- `alternative::SingleElement::deallocate`. -/
def SingleElement.deallocate (F : ElemBE σF ηF M T ν) (S : ElemBE σS ηS M T ν)
    (st : AltState σF σS) (h : AltHandle ηF ηS) : PResult (AltState σF σS) :=
  match st, h with
  | .first f, .first hf => .ok (.first (F.deallocate f hf))
  | .second s, .second hs => .ok (.second (S.deallocate s hs))
  | .poisoned, _ => .panicked
  | .first _, .second _ => .panicked
  | .second _, .first _ => .panicked

/-- An `allocate` or `create` call, for executions of the alternative
composite. -/
inductive AltOp (M T : Type) : Type
  | alloc : M → AltOp M T
  | mk : T → AltOp M T

/-- One `allocate`/`create` step of the alternative composite, with the
result collapsed to the produced handle (if any). -/
def SingleElement.step (F : ElemBE σF ηF M T ν) (S : ElemBE σS ηS M T ν)
    (freshS : σS) (st : AltState σF σS) (op : AltOp M T) :
    AltState σF σS × PResult (Option (AltHandle ηF ηS)) :=
  match op with
  | .alloc m => SingleElement.allocate F S freshS st m
  | .mk v =>
    match SingleElement.create F S freshS st v with
    | (st', .panicked) => (st', .panicked)
    | (st', .ok (.ok h)) => (st', .ok (some h))
    | (st', .ok (.error _)) => (st', .ok none)

/-- Running a list of `allocate`/`create` calls: final state. -/
def SingleElement.run (F : ElemBE σF ηF M T ν) (S : ElemBE σS ηS M T ν)
    (freshS : σS) (st : AltState σF σS) : List (AltOp M T) → AltState σF σS
  | [] => st
  | op :: ops => SingleElement.run F S freshS (SingleElement.step F S freshS st op).1 ops

/-- The state of the composite just before the `i`-th call of an
execution. -/
def SingleElement.stateAt (F : ElemBE σF ηF M T ν) (S : ElemBE σS ηS M T ν)
    (freshS : σS) (st : AltState σF σS) (ops : List (AltOp M T)) (i : Nat) :
    AltState σF σS :=
  SingleElement.run F S freshS st (ops.take i)

/-- The result of the `i`-th call of an execution (`none` past the end). -/
def SingleElement.outAt (F : ElemBE σF ηF M T ν) (S : ElemBE σS ηS M T ν)
    (freshS : σS) (st : AltState σF σS) (ops : List (AltOp M T)) (i : Nat) :
    Option (PResult (Option (AltHandle ηF ηS))) :=
  (ops.get? i).map fun op =>
    (SingleElement.step F S freshS (SingleElement.stateAt F S freshS st ops i) op).2

/-- A wrapped general-purpose allocator (the `core::alloc::Allocator`
collaborator): `σ` is the allocator's internal state, `L` the layout type
and `M` the memory-block type.  Every operation returns the successor
state; `none` models an allocation failure. -/
structure AllocatorBE (σ L M : Type) where
  allocate : σ → L → σ × Option M
  deallocate : σ → M → L → σ
  grow : σ → M → L → L → σ × Option M
  shrink : σ → M → L → L → σ × Option M

/-- A range handle of `AllocStorage`: the memory block plus the capacity
(`NonNull<[MaybeUninit<T>]>` is a fat pointer carrying the length). -/
structure AllocHandle (M : Type) : Type where
  mem : M
  len : Nat
deriving DecidableEq

/-- Parameters of `AllocStorage`'s range implementation for one element
type `T`: whether `Layout::array::<T>(n)` is valid (`layout_for`), the
layout it produces, and the dangling sentinel block.  `layout_of` in the
source `expect`s validity, which holds for every handle produced by a
successful allocation; it is modelled by the same total `layoutArr`. -/
structure AllocLayout (L M : Type) : Type where
  layoutValid : Nat → Bool
  layoutArr : Nat → L
  dangling : M

/-- `RangeStorage for AllocStorage`: `allocate`.  Zero capacity returns the
length-0 dangling handle without consulting the allocator. -/
def AllocStorage.allocate (A : AllocatorBE σ L M) (P : AllocLayout L M)
    (a : σ) (cap : Nat) : σ × Option (AllocHandle M) :=
  if cap = 0 then (a, some ⟨P.dangling, 0⟩)
  else if P.layoutValid cap then
    match A.allocate a (P.layoutArr cap) with
    | (a', some m) => (a', some ⟨m, cap⟩)
    | (a', none) => (a', none)
  else (a, none)

/-- `RangeStorage for AllocStorage`: `deallocate`.  A length-0 handle is a
no-op; otherwise the allocator is invoked with the layout recomputed from
the handle's length. -/
def AllocStorage.deallocate (A : AllocatorBE σ L M) (P : AllocLayout L M)
    (a : σ) (h : AllocHandle M) : σ :=
  if h.len > 0 then A.deallocate a h.mem (P.layoutArr h.len) else a

/-- `RangeStorage for AllocStorage`: `try_grow`.  Growing a length-0
handle performs a fresh allocation; otherwise the allocator's in-place
`grow` is used. -/
def AllocStorage.try_grow (A : AllocatorBE σ L M) (P : AllocLayout L M)
    (a : σ) (h : AllocHandle M) (cap : Nat) : σ × Option (AllocHandle M) :=
  if h.len = 0 then AllocStorage.allocate A P a cap
  else if P.layoutValid cap then
    match A.grow a h.mem (P.layoutArr h.len) (P.layoutArr cap) with
    | (a', some m) => (a', some ⟨m, cap⟩)
    | (a', none) => (a', none)
  else (a, none)

/-- `RangeStorage for AllocStorage`: `try_shrink`.  A length-0 handle
fails; shrinking to capacity 0 deallocates and returns the dangling
sentinel; otherwise the allocator's in-place `shrink` is used. -/
def AllocStorage.try_shrink (A : AllocatorBE σ L M) (P : AllocLayout L M)
    (a : σ) (h : AllocHandle M) (cap : Nat) : σ × Option (AllocHandle M) :=
  if h.len = 0 then (a, none)
  else if cap = 0 then
    (A.deallocate a h.mem (P.layoutArr h.len), some ⟨P.dangling, 0⟩)
  else if P.layoutValid cap then
    match A.shrink a h.mem (P.layoutArr h.len) (P.layoutArr cap) with
    | (a', some m) => (a', some ⟨m, cap⟩)
    | (a', none) => (a', none)
  else (a, none)

/-- A size/alignment requirement (`core::alloc::Layout`). -/
structure Shape : Type where
  size : Nat
  align : Nat
deriving DecidableEq

/-- Modelled from the spec: `utils::validate_layout` (`utils.rs` is not
under `src/`): the requested shape fits within the buffer type's size and
alignment. -/
def validate_layout (req buf : Shape) : Bool :=
  req.size ≤ buf.size && req.align ≤ buf.align

/-- The `INVALID_NEXT` sentinel of the tracking inline storage
(`usize::MAX`). -/
def INVALID_NEXT : Nat := 2 ^ 64 - 1

/-- `TrackingElement<S, N>`: the free-list bookkeeping state.  `data`
records, for each of the `N` slots, the overlay's `next` field (only
meaningful while the slot sits in the free list; a slot holding a value
uses the same memory for data). -/
structure TrackingElement (N : Nat) : Type where
  next : Nat
  data : List Nat
deriving DecidableEq

/-- `TrackingElement::default`: all `N` slots chained into the free list,
`0 → 1 → … → N-1 → INVALID_NEXT`; with `N = 0` the list is empty. -/
def TrackingElement.default (N : Nat) : TrackingElement N :=
  if N = 0 then ⟨INVALID_NEXT, []⟩
  else ⟨0, (List.range N).map fun i => if i = N - 1 then INVALID_NEXT else i + 1⟩

/-- `TrackingElement::allocate`: validate the shape against one slot, fail
if the free list is empty, otherwise pop the head slot index.  The
unchecked slot read (`get_unchecked`) is modelled with a default value; on
states satisfying the free-list invariant the index is in bounds. -/
def TrackingElement.allocate (buf req : Shape) (st : TrackingElement N) :
    Option (TrackingElement N × Nat) :=
  if ¬ validate_layout req buf then none
  else if st.next = INVALID_NEXT then none
  else some (⟨st.data.getD st.next 0, st.data⟩, st.next)

/-- `TrackingElement::deallocate`: push the slot back onto the free-list
head (LIFO). -/
def TrackingElement.deallocate (st : TrackingElement N) (h : Nat) :
    TrackingElement N :=
  ⟨h, st.data.set h st.next⟩

/-- A sequence of `k` allocations with one shape, returning the final
state and the handles in allocation order; fails if any allocation
fails. -/
def TrackingElement.allocs (buf req : Shape) (st : TrackingElement N) :
    Nat → Option (TrackingElement N × List Nat)
  | 0 => some (st, [])
  | k + 1 =>
    match TrackingElement.allocate buf req st with
    | none => none
    | some (st', h) =>
      match TrackingElement.allocs buf req st' k with
      | none => none
      | some (st'', hs) => some (st'', h :: hs)

/-- Deallocating a list of handles in order. -/
def TrackingElement.deallocs (st : TrackingElement N) (hs : List Nat) :
    TrackingElement N :=
  hs.foldl TrackingElement.deallocate st

/-- The free-list chain of slot indices starting at a given head: the
chain follows each slot's stored `next` field and ends at the
`INVALID_NEXT` sentinel; every link is in bounds. -/
inductive FreeChain (data : List Nat) : Nat → List Nat → Prop
  | nil : FreeChain data INVALID_NEXT []
  | cons {i : Nat} {l : List Nat} :
      i ≠ INVALID_NEXT → i < data.length →
      FreeChain data (data.getD i 0) l → FreeChain data i (i :: l)

/-- The free-list invariant of the tracking inline storage, relative to the
list `live` of currently live handle indices: the chain from `next` is made
of distinct in-bounds indices, disjoint from the live handles (which are
themselves distinct and in bounds), and together they account for all `N`
slots. -/
def TInv (N : Nat) (st : TrackingElement N) (live : List Nat) : Prop :=
  N ≤ INVALID_NEXT ∧ st.data.length = N ∧
    ∃ fl, FreeChain st.data st.next fl ∧ (fl ++ live).Nodup ∧
      (∀ x ∈ fl ++ live, x < N) ∧ fl.length + live.length = N

/-- `NonTrackingElement`'s handle: the value's buffer lives inside the
handle itself (`UnsafeCell<MaybeUninit<S>>`), alongside the metadata. -/
structure NTEHandle (T M : Type) : Type where
  data : Option T
  meta : M
deriving DecidableEq

/-- `NonTrackingElement::allocate`: validate the requested shape against
the buffer type's shape and hand out a fresh handle with an uninitialized
buffer.  The storage itself is stateless (`PhantomData`), so no occupancy
is consulted: the model takes no storage state at all. -/
def NonTrackingElement.allocate (buf : Shape) (reqOf : M → Shape) (m : M) :
    Option (NTEHandle T M) :=
  if validate_layout (reqOf m) buf then some ⟨none, m⟩ else none

/-- `NonTrackingElement::get`: the view is reconstructed from the handle's
own buffer; it depends on nothing but the handle. -/
def NonTrackingElement.get (h : NTEHandle T M) : Option T :=
  h.data

/-- `NonTrackingElement::coerce`: build a fresh handle with the coerced
metadata and copy the buffer contents into it
(`ptr::copy_nonoverlapping`). -/
def NonTrackingElement.coerce (h : NTEHandle T M) (newMeta : M) :
    NTEHandle T M :=
  ⟨h.data, newMeta⟩

/-- `NonTrackingElement::deallocate`: a no-op. -/
def NonTrackingElement.deallocate (_h : NTEHandle T M) : Unit := ()

/-- The states reachable from construction of the tracking inline storage
by any sequence of `allocate` and `deallocate`, where only handles
previously returned by `allocate` and not yet deallocated (the `live`
list) may be deallocated. -/
inductive Reach (N : Nat) (buf : Shape) : TrackingElement N → List Nat → Prop
  | init : N ≤ INVALID_NEXT → Reach N buf (TrackingElement.default N) []
  | alloc {st : TrackingElement N} {live : List Nat} {req : Shape}
      {st' : TrackingElement N} {h : Nat} : Reach N buf st live →
      TrackingElement.allocate buf req st = some (st', h) →
      Reach N buf st' (h :: live)
  | dealloc {st : TrackingElement N} {live : List Nat} {h : Nat} :
      Reach N buf st live → h ∈ live →
      Reach N buf (TrackingElement.deallocate st h) (live.erase h)

/-- A concrete element backend whose allocations always fail, returning
the value intact and leaving its (trivial) state unchanged; used to
instantiate composites at concrete inputs. -/
def failElem : ElemBE Unit Unit Unit Nat Unit :=
  { allocate := fun _ _ => ((), none)
    create := fun _ v => ((), .error v)
    get := fun _ _ => ()
    coerce := fun _ h => h
    deallocate := fun s _ => s }

/-- A concrete allocator that counts its calls: every operation increments
the state, so an untouched state witnesses that no call was made. -/
def cntAllocator : AllocatorBE Nat Unit Unit :=
  { allocate := fun a _ => (a + 1, some ())
    deallocate := fun a _ _ => a + 1
    grow := fun a _ _ _ => (a + 1, some ())
    shrink := fun a _ _ _ => (a + 1, some ()) }

/-- Trivial layout parameters for the counting allocator. -/
def unitLayout : AllocLayout Unit Unit :=
  { layoutValid := fun _ => true
    layoutArr := fun _ => ()
    dangling := () }

/-- A tiny concrete range backend for instantiating the fallback range
composite: the state is a single buffer, the handle is trivial, and
in-place growth always fails (forcing the migration path). -/
def bufRange : RangeBE (List (Option Nat)) Unit Nat Nat :=
  { allocate := fun _ c => (List.replicate c none, some ())
    try_grow := fun s _ _ => (s, none)
    try_shrink := fun s _ c => (s.take c, some ())
    deallocate := fun s _ => s
    get := fun s _ => s
    write := fun _ _ v => v }

/-!
## Theorems
-/

/-- C1 (counterexample): with a `usize`-capacity first backend reporting
maximum `usize::MAX` and a `u8`-capacity second backend reporting maximum
100, the composite's `maximum_capacity` returns 100 — the second backend's
maximum — while the claim's value, the saturating sum clamped to the
capacity type's maximum, is 255. -/
theorem c1_counterexample :
    FallbackRange.maximum_capacity capUsize capU8 USIZE_MAX 100 = 100 ∧
    FallbackRange.maximum_capacity_per_claim capUsize capU8 USIZE_MAX 100 = 255 ∧
    (100 : Nat) ≠ 255 := by
  refine ⟨by decide, by decide, by decide⟩

/-- C1 (amended): for lawful capacity operations, `maximum_capacity`
equals the saturating sum of the two backends' maxima whenever that sum is
representable in the composite's capacity type, and otherwise falls back
to the *second backend's* maximum capacity (not the capacity type's
maximum). -/
theorem c1_maximum_capacity (capF : CapOps CF) (capS : CapOps CS)
    (firstMax : CF) (secondMax : CS)
    (hsome : ∀ n, n ≤ capS.intoUsize capS.max → (capS.fromUsize n).isSome = true)
    (hval : ∀ n c, capS.fromUsize n = some c → capS.intoUsize c = n)
    (hnone : ∀ n, capS.intoUsize capS.max < n → capS.fromUsize n = none) :
    (usizeSatAdd (capF.intoUsize firstMax) (capS.intoUsize secondMax) ≤
        capS.intoUsize capS.max →
      capS.intoUsize (FallbackRange.maximum_capacity capF capS firstMax secondMax) =
        usizeSatAdd (capF.intoUsize firstMax) (capS.intoUsize secondMax)) ∧
    (capS.intoUsize capS.max <
        usizeSatAdd (capF.intoUsize firstMax) (capS.intoUsize secondMax) →
      FallbackRange.maximum_capacity capF capS firstMax secondMax = secondMax) := by
  constructor
  · intro hle
    obtain ⟨c, hc⟩ := Option.isSome_iff_exists.mp (hsome _ hle)
    unfold FallbackRange.maximum_capacity
    rw [hc]
    exact hval _ _ hc
  · intro hlt
    unfold FallbackRange.maximum_capacity
    rw [hnone _ hlt]

/-- C1 witness: the amended theorem applied at two `u8`-like backends with
maxima 3 and 4. -/
theorem c1_witness :
    usizeSatAdd (capU8.intoUsize 3) (capU8.intoUsize 4) ≤ capU8.intoUsize capU8.max ∧
    capU8.intoUsize (FallbackRange.maximum_capacity capU8 capU8 3 4) =
      usizeSatAdd (capU8.intoUsize 3) (capU8.intoUsize 4) := by
  refine ⟨by decide, ?_⟩
  refine (c1_maximum_capacity capU8 capU8 3 4 ?_ ?_ ?_).1 (by decide)
  · intro n hn
    simp only [capU8] at hn ⊢
    simp [hn]
  · intro n c hc
    simp only [capU8] at hc ⊢
    by_cases hn : n ≤ 255
    · simp [hn] at hc
      omega
    · simp [hn] at hc
  · intro n hn
    simp only [capU8] at hn ⊢
    have : ¬ n ≤ 255 := by omega
    simp [this]

/-- C6: the allocator-backed range storage special-cases zero capacity,
for every wrapped allocator: `allocate 0` yields the length-0 dangling
handle with the allocator state untouched (so for an allocator that counts
its calls, no call was made); `deallocate` of a length-0 handle is a
no-op; `try_grow` on a length-0 handle is exactly a fresh `allocate` of
the new capacity; and `try_shrink` to capacity 0 deallocates the old
allocation and returns the dangling sentinel. -/
theorem c6_alloc_zero_special (A : AllocatorBE σ L M) (P : AllocLayout L M)
    (a : σ) (m : M) (cap len : Nat) (hlen : len ≠ 0) :
    AllocStorage.allocate A P a 0 = (a, some ⟨P.dangling, 0⟩) ∧
    AllocStorage.deallocate A P a ⟨m, 0⟩ = a ∧
    AllocStorage.try_grow A P a ⟨m, 0⟩ cap = AllocStorage.allocate A P a cap ∧
    AllocStorage.try_shrink A P a ⟨m, len⟩ 0 =
      (A.deallocate a m (P.layoutArr len), some ⟨P.dangling, 0⟩) := by
  refine ⟨rfl, rfl, rfl, ?_⟩
  unfold AllocStorage.try_shrink
  simp [hlen]

/-- C6 witness: with the counting allocator, shrinking a length-1 handle
to capacity 0 performs exactly the deallocation call and returns the
dangling sentinel. -/
theorem c6_witness :
    (1 : Nat) ≠ 0 ∧
    AllocStorage.try_shrink cntAllocator unitLayout 0 ⟨(), 1⟩ 0 =
      (1, some ⟨(), 0⟩) :=
  ⟨by decide, (c6_alloc_zero_special cntAllocator unitLayout 0 () 0 1 (by decide)).2.2.2⟩

/-- C8: every operation of the alternative composite — `allocate`,
`create`, `get`, `coerce`, `deallocate` — panics on a Poisoned instance
instead of returning a recoverable error; no operation on a Poisoned
instance returns normally. -/
theorem c8_poisoned_fatal (F : ElemBE σF ηF M T ν) (S : ElemBE σS ηS M T ν)
    (freshS : σS) (m : M) (v : T) (h : AltHandle ηF ηS) :
    SingleElement.allocate F S freshS .poisoned m = (.poisoned, .panicked) ∧
    SingleElement.create F S freshS .poisoned v = (.poisoned, .panicked) ∧
    SingleElement.get F S .poisoned h = .panicked ∧
    SingleElement.coerce F S .poisoned h = .panicked ∧
    SingleElement.deallocate F S .poisoned h = .panicked := by
  refine ⟨rfl, rfl, ?_, ?_, ?_⟩ <;> cases h <;> rfl

/-- C10: for the non-tracking inline element storage, the stored value's
buffer lives inside the handle itself; `allocate` succeeds for every shape
that fits the buffer type's size and alignment, and — the storage being
stateless — its result depends on no storage state and no count of live
handles; `get` returns the handle's own buffer (so the views of distinct
handles never share state); `coerce` copies the handle's buffer contents
into the freshly returned handle; `deallocate` is a no-op. -/
theorem c10_non_tracking (buf : Shape) (reqOf : M → Shape) (m mu : M)
    (h : NTEHandle T M) (hfit : validate_layout (reqOf m) buf = true) :
    NonTrackingElement.allocate (T := T) buf reqOf m = some ⟨none, m⟩ ∧
    NonTrackingElement.get h = h.data ∧
    NonTrackingElement.coerce h mu = ⟨h.data, mu⟩ ∧
    NonTrackingElement.deallocate h = () := by
  refine ⟨?_, rfl, rfl, rfl⟩
  unfold NonTrackingElement.allocate
  simp [hfit]

/-- C10 witness: a 1-byte shape inside a 4-byte buffer. -/
theorem c10_witness :
    validate_layout ⟨1, 1⟩ ⟨4, 4⟩ = true ∧
    NonTrackingElement.allocate (T := Nat) ⟨4, 4⟩ (fun _ : Unit => ⟨1, 1⟩) () =
      some ⟨none, ()⟩ :=
  ⟨by decide,
    (c10_non_tracking ⟨4, 4⟩ (fun _ : Unit => ⟨1, 1⟩) () ()
      (⟨none, ()⟩ : NTEHandle Nat Unit) (by decide)).1⟩

/-- C2 (counterexample): the claim fails for the alternative composite.
With two well-behaved always-failing backends (each returns its value
intact and has no state to change), a failed `create` from the First state
returns the original value but leaves the composite in the Second state —
its observable state after the failed attempt differs from its state
before. -/
theorem c2_counterexample :
    (SingleElement.create failElem failElem () (.first ()) 42).2 =
      .ok (.error 42) ∧
    (SingleElement.create failElem failElem () (.first ()) 42).1 = .second () ∧
    (AltState.second () : AltState Unit Unit) ≠ .first () :=
  ⟨rfl, rfl, by decide⟩

/-- C2 (amended): a failed `create` returns exactly the original value for
every element storage whose constituents do (the provided default
implementation, the fallback composite and the alternative composite), and
leaves the storage state unchanged for all of them *except* the
alternative composite, which commits the First→Second transition on a
failed create from the First state (a failed create from the Second state
does leave the state unchanged). -/
theorem c2_create_failure (F : ElemBE σF ηF M T ν) (S : ElemBE σS ηS M T ν)
    (freshS : σS)
    (HF : ∀ f w f' u, F.create f w = (f', .error u) → u = w ∧ f' = f)
    (HS : ∀ s w s' u, S.create s w = (s', .error u) → u = w ∧ s' = s) :
    (∀ st v st' u, FallbackElement.create F S st v = (st', .error u) →
      u = v ∧ st' = st) ∧
    (∀ st v st' u,
      SingleElement.create F S freshS st v = (st', .ok (.error u)) → u = v) ∧
    (∀ s v st' u,
      SingleElement.create F S freshS (.second s) v = (st', .ok (.error u)) →
      st' = .second s) ∧
    (∀ (σ η : Type) (allocate : σ → M → σ × Option η) (store : σ → η → T → σ)
        (metaOf : T → M),
      (∀ st m st', allocate st m = (st', none) → st' = st) →
      ∀ st v st' u, defaultCreate allocate store metaOf st v = (st', .error u) →
        u = v ∧ st' = st) := by
  refine ⟨?_, ?_, ?_, ?_⟩
  · intro st v st' u he
    rcases hF : F.create st.1 v with ⟨f', rf⟩
    rcases rf with vf | hf
    · rcases hS : S.create st.2 vf with ⟨s', rs⟩
      rcases rs with vs | hs
      · simp only [FallbackElement.create, hF, hS] at he
        injection he with he1 he2
        injection he2 with he2
        obtain ⟨hv1, hf1⟩ := HF _ _ _ _ hF
        obtain ⟨hv2, hs1⟩ := HS _ _ _ _ hS
        refine ⟨?_, ?_⟩
        · rw [← he2, hv2, hv1]
        · rw [← he1, hf1, hs1]
      · simp only [FallbackElement.create, hF, hS] at he
        exact Except.noConfusion (congrArg Prod.snd he)
    · simp only [FallbackElement.create, hF] at he
      exact Except.noConfusion (congrArg Prod.snd he)
  · intro st v st' u he
    rcases st with f | s | _
    · rcases hF : F.create f v with ⟨f', rf⟩
      rcases rf with vf | hf
      · rcases hS : S.create freshS vf with ⟨s', rs⟩
        rcases rs with vs | hs
        · simp only [SingleElement.create, hF, hS] at he
          have h2 := congrArg Prod.snd he
          injection h2 with h2
          injection h2 with h2
          obtain ⟨hv1, _⟩ := HF _ _ _ _ hF
          obtain ⟨hv2, _⟩ := HS _ _ _ _ hS
          rw [← h2, hv2, hv1]
        · simp only [SingleElement.create, hF, hS] at he
          have h2 := congrArg Prod.snd he
          injection h2 with h2
          exact Except.noConfusion h2
      · simp only [SingleElement.create, hF] at he
        have h2 := congrArg Prod.snd he
        injection h2 with h2
        exact Except.noConfusion h2
    · rcases hS : S.create s v with ⟨s', rs⟩
      rcases rs with vs | hs
      · simp only [SingleElement.create, hS] at he
        have h2 := congrArg Prod.snd he
        injection h2 with h2
        injection h2 with h2
        obtain ⟨hv2, _⟩ := HS _ _ _ _ hS
        rw [← h2, hv2]
      · simp only [SingleElement.create, hS] at he
        have h2 := congrArg Prod.snd he
        injection h2 with h2
        exact Except.noConfusion h2
    · simp only [SingleElement.create] at he
      exact PResult.noConfusion (congrArg Prod.snd he)
  · intro s v st' u he
    rcases hS : S.create s v with ⟨s', rs⟩
    rcases rs with vs | hs
    · simp only [SingleElement.create, hS] at he
      obtain ⟨_, hs1⟩ := HS _ _ _ _ hS
      injection he with he1 he2
      rw [← he1, hs1]
    · simp only [SingleElement.create, hS] at he
      have h2 := congrArg Prod.snd he
      injection h2 with h2
      exact Except.noConfusion h2
  · intro σ η allocate store metaOf hpres st v st' u he
    rcases hA : allocate st (metaOf v) with ⟨st1, ro⟩
    rcases ro with _ | h
    · simp only [defaultCreate, hA] at he
      have hu := congrArg Prod.snd he
      injection hu with hu
      exact ⟨hu.symm, (congrArg Prod.fst he).symm.trans (hpres _ _ _ hA)⟩
    · simp only [defaultCreate, hA] at he
      exact Except.noConfusion (congrArg Prod.snd he)

/-- C2 witness: the amended theorem applied to the always-failing backends
at value 42. -/
theorem c2_witness :
    (42 : Nat) = 42 ∧ ((((), ()) : Unit × Unit) = ((), ())) :=
  (c2_create_failure failElem failElem ()
      (fun _ _ _ _ h => by
        refine ⟨?_, rfl⟩
        have h2 := congrArg Prod.snd h
        simp only [failElem] at h2
        injection h2 with h2
        exact h2.symm)
      (fun _ _ _ _ h => by
        refine ⟨?_, rfl⟩
        have h2 := congrArg Prod.snd h
        simp only [failElem] at h2
        injection h2 with h2
        exact h2.symm)).1
    ((), ()) 42 ((), ()) 42 rfl

theorem alt_isSecond_iff (st : AltState σF σS) :
    st.isSecond = true ↔ ∃ s, st = .second s := by
  cases st <;> simp [AltState.isSecond]

theorem alt_step_first_cases (F : ElemBE σF ηF M T ν) (S : ElemBE σS ηS M T ν)
    (freshS : σS) (f : σF) (op : AltOp M T) :
    (∃ s, (SingleElement.step F S freshS (.first f) op).1 = .second s) ∨
    (∃ f' h, SingleElement.step F S freshS (.first f) op =
      (.first f', .ok (some (.first h)))) := by
  cases op with
  | alloc m =>
    rcases hA : F.allocate f m with ⟨f', ro⟩
    rcases ro with _ | h
    · left
      rcases hS : S.allocate freshS m with ⟨s', rs⟩
      exact ⟨s', by simp [SingleElement.step, SingleElement.allocate, hA, hS]⟩
    · right
      exact ⟨f', h, by simp [SingleElement.step, SingleElement.allocate, hA]⟩
  | mk v =>
    rcases hC : F.create f v with ⟨f', ro⟩
    rcases ro with v' | h
    · left
      rcases hS : S.create freshS v' with ⟨s', rs⟩
      rcases rs with v'' | hs
      · exact ⟨s', by simp [SingleElement.step, SingleElement.create, hC, hS]⟩
      · exact ⟨s', by simp [SingleElement.step, SingleElement.create, hC, hS]⟩
    · right
      exact ⟨f', h, by simp [SingleElement.step, SingleElement.create, hC]⟩

theorem alt_step_second_cases (F : ElemBE σF ηF M T ν) (S : ElemBE σS ηS M T ν)
    (freshS : σS) (s : σS) (op : AltOp M T) :
    ∃ s' r, SingleElement.step F S freshS (.second s) op = (.second s', .ok r) ∧
      ∀ h, r = some h → h.isSecond = true := by
  cases op with
  | alloc m =>
    rcases hA : S.allocate s m with ⟨s', ro⟩
    refine ⟨s', ro.map .second,
      by simp [SingleElement.step, SingleElement.allocate, hA], ?_⟩
    intro h hr
    rcases ro with _ | hs
    · exact Option.noConfusion hr
    · injection hr with hr
      rw [← hr]; rfl
  | mk v =>
    rcases hC : S.create s v with ⟨s', ro⟩
    rcases ro with v' | hs
    · refine ⟨s', none, by simp [SingleElement.step, SingleElement.create, hC], ?_⟩
      intro h hr
      exact Option.noConfusion hr
    · refine ⟨s', some (.second hs),
        by simp [SingleElement.step, SingleElement.create, hC], ?_⟩
      intro h hr
      injection hr with hr
      rw [← hr]; rfl

theorem alt_run_stays_second (F : ElemBE σF ηF M T ν) (S : ElemBE σS ηS M T ν)
    (freshS : σS) (ops : List (AltOp M T)) :
    ∀ s : σS, ∃ s2, SingleElement.run F S freshS (.second s) ops = .second s2 := by
  induction ops with
  | nil => exact fun s => ⟨s, rfl⟩
  | cons op ops ih =>
    intro s
    obtain ⟨s', r, hstep, _⟩ := alt_step_second_cases F S freshS s op
    obtain ⟨s2, h2⟩ := ih s'
    refine ⟨s2, ?_⟩
    show SingleElement.run F S freshS (SingleElement.step F S freshS (.second s) op).1 ops = _
    rw [hstep]
    exact h2

theorem alt_run_isSecond_mono (F : ElemBE σF ηF M T ν) (S : ElemBE σS ηS M T ν)
    (freshS : σS) (ops : List (AltOp M T)) (st : AltState σF σS)
    (h : st.isSecond = true) :
    (SingleElement.run F S freshS st ops).isSecond = true := by
  obtain ⟨s, rfl⟩ := (alt_isSecond_iff st).mp h
  obtain ⟨s2, h2⟩ := alt_run_stays_second F S freshS ops s
  rw [h2]; rfl

theorem alt_step_not_poisoned (F : ElemBE σF ηF M T ν) (S : ElemBE σS ηS M T ν)
    (freshS : σS) (st : AltState σF σS) (op : AltOp M T)
    (h : st.isPoisoned = false) :
    ((SingleElement.step F S freshS st op).1).isPoisoned = false := by
  rcases st with f | s | _
  · rcases alt_step_first_cases F S freshS f op with ⟨s, hs⟩ | ⟨f', hh, heq⟩
    · rw [hs]; rfl
    · rw [heq]; rfl
  · obtain ⟨s', r, hstep, _⟩ := alt_step_second_cases F S freshS s op
    rw [hstep]; rfl
  · exact absurd h (by simp [AltState.isPoisoned])

theorem alt_run_not_poisoned (F : ElemBE σF ηF M T ν) (S : ElemBE σS ηS M T ν)
    (freshS : σS) (ops : List (AltOp M T)) :
    ∀ st : AltState σF σS, st.isPoisoned = false →
      (SingleElement.run F S freshS st ops).isPoisoned = false := by
  induction ops with
  | nil => exact fun st h => h
  | cons op ops ih =>
    intro st h
    exact ih _ (alt_step_not_poisoned F S freshS st op h)

theorem alt_run_append (F : ElemBE σF ηF M T ν) (S : ElemBE σS ηS M T ν)
    (freshS : σS) (l1 l2 : List (AltOp M T)) :
    ∀ st, SingleElement.run F S freshS st (l1 ++ l2) =
      SingleElement.run F S freshS (SingleElement.run F S freshS st l1) l2 := by
  induction l1 with
  | nil => exact fun st => rfl
  | cons op l1 ih => exact fun st => ih _

theorem alt_stateAt_succ (F : ElemBE σF ηF M T ν) (S : ElemBE σS ηS M T ν)
    (freshS : σS) (st : AltState σF σS) (ops : List (AltOp M T)) (i : Nat)
    (op : AltOp M T) (hop : ops.get? i = some op) :
    SingleElement.stateAt F S freshS st ops (i + 1) =
      (SingleElement.step F S freshS
        (SingleElement.stateAt F S freshS st ops i) op).1 := by
  unfold SingleElement.stateAt
  have hop' : ops[i]? = some op := by
    rw [← List.get?_eq_getElem?]; exact hop
  rw [List.take_succ, hop']
  rw [alt_run_append]
  rfl

theorem alt_stateAt_mono (F : ElemBE σF ηF M T ν) (S : ElemBE σS ηS M T ν)
    (freshS : σS) (st : AltState σF σS) (ops : List (AltOp M T)) (i j : Nat)
    (hij : i ≤ j)
    (h : (SingleElement.stateAt F S freshS st ops i).isSecond = true) :
    (SingleElement.stateAt F S freshS st ops j).isSecond = true := by
  have hsplit : ops.take j = ops.take i ++ ((ops.drop i).take (j - i)) := by
    rw [← List.take_add, Nat.add_sub_cancel' hij]
  unfold SingleElement.stateAt at h ⊢
  rw [hsplit, alt_run_append]
  exact alt_run_isSecond_mono F S freshS _ _ h

/-- C3: temporal behavior of the alternative composite from the First
state.  Step level: a success of the first backend yields a First-tagged
handle and stays in First; the first failure of `allocate`/`create` on the
first backend commits the transition to Second — the state becomes Second
built from the fresh (builder-derived) second backend even when the
retried operation fails.  Trace level, for every execution from the First
state: Second is absorbing (no transition back to First), the Poisoned
state is never observed, every call that succeeds while the execution is
still in First returns a First-tagged handle, and every call made in the
Second state that succeeds returns a Second-tagged handle. -/
theorem c3_alternative_temporal (F : ElemBE σF ηF M T ν) (S : ElemBE σS ηS M T ν)
    (freshS : σS) (f0 : σF) (ops : List (AltOp M T)) :
    (∀ f m f' h, F.allocate f m = (f', some h) →
      SingleElement.allocate F S freshS (.first f) m =
        (.first f', .ok (some (.first h)))) ∧
    (∀ f m f', F.allocate f m = (f', none) →
      (SingleElement.allocate F S freshS (.first f) m).1 =
        .second (S.allocate freshS m).1) ∧
    (∀ f v f' h, F.create f v = (f', .ok h) →
      SingleElement.create F S freshS (.first f) v =
        (.first f', .ok (.ok (.first h)))) ∧
    (∀ f v f' u, F.create f v = (f', .error u) →
      (SingleElement.create F S freshS (.first f) v).1 =
        .second (S.create freshS u).1) ∧
    (∀ i j, i ≤ j →
      (SingleElement.stateAt F S freshS (.first f0) ops i).isSecond = true →
      (SingleElement.stateAt F S freshS (.first f0) ops j).isSecond = true) ∧
    (∀ i, (SingleElement.stateAt F S freshS (.first f0) ops i).isPoisoned =
      false) ∧
    (∀ i h,
      (SingleElement.stateAt F S freshS (.first f0) ops (i + 1)).isSecond =
        false →
      SingleElement.outAt F S freshS (.first f0) ops i = some (.ok (some h)) →
      h.isFirst = true) ∧
    (∀ i h,
      (SingleElement.stateAt F S freshS (.first f0) ops i).isSecond = true →
      SingleElement.outAt F S freshS (.first f0) ops i = some (.ok (some h)) →
      h.isSecond = true) := by
  refine ⟨?_, ?_, ?_, ?_, ?_, ?_, ?_, ?_⟩
  · intro f m f' h hA
    simp [SingleElement.allocate, hA]
  · intro f m f' hA
    rcases hS : S.allocate freshS m with ⟨s', rs⟩
    simp [SingleElement.allocate, hA, hS]
  · intro f v f' h hC
    simp [SingleElement.create, hC]
  · intro f v f' u hC
    rcases hS : S.create freshS u with ⟨s', rs⟩
    rcases rs with v'' | hs
    · simp [SingleElement.create, hC, hS]
    · simp [SingleElement.create, hC, hS]
  · exact fun i j hij h => alt_stateAt_mono F S freshS _ ops i j hij h
  · intro i
    exact alt_run_not_poisoned F S freshS _ _ rfl
  · intro i h hnot hout
    unfold SingleElement.outAt at hout
    rcases hop : ops.get? i with _ | op
    · rw [hop] at hout
      exact Option.noConfusion hout
    · rw [hop] at hout
      injection hout with hout
      have hsucc := alt_stateAt_succ F S freshS (.first f0) ops i op hop
      rcases hst : SingleElement.stateAt F S freshS (.first f0) ops i with
        f | s | _
      · rw [hst] at hsucc hout
        have hout' : (SingleElement.step F S freshS (AltState.first f) op).2 =
            PResult.ok (some h) := hout
        rcases alt_step_first_cases F S freshS f op with ⟨s, hs⟩ | ⟨f', h0, heq⟩
        · rw [hsucc, hs] at hnot
          exact absurd hnot (by simp [AltState.isSecond])
        · rw [heq] at hout'
          have h2 := hout'
          injection h2 with h2
          injection h2 with h2
          rw [← h2]; rfl
      · have hmono := alt_stateAt_mono F S freshS (.first f0) ops i (i + 1)
          (Nat.le_succ i) (by rw [hst]; rfl)
        rw [hmono] at hnot
        exact Bool.noConfusion hnot
      · have hp := alt_run_not_poisoned F S freshS (ops.take i)
          (.first f0) rfl
        unfold SingleElement.stateAt at hst
        rw [hst] at hp
        exact absurd hp (by simp [AltState.isPoisoned])
  · intro i h hsec hout
    unfold SingleElement.outAt at hout
    rcases hop : ops.get? i with _ | op
    · rw [hop] at hout
      exact Option.noConfusion hout
    · rw [hop] at hout
      injection hout with hout
      obtain ⟨s, hst⟩ := (alt_isSecond_iff _).mp hsec
      rw [hst] at hout
      have hout' : (SingleElement.step F S freshS (AltState.second s) op).2 =
          PResult.ok (some h) := hout
      obtain ⟨s', r, hstep, hr⟩ := alt_step_second_cases F S freshS s op
      rw [hstep] at hout'
      have h2 := hout'
      injection h2 with h2
      exact hr h h2

/-- C3 witness: the commit-on-failure conjunct applied to the concrete
always-failing backends. -/
theorem c3_witness :
    failElem.allocate () () = ((), none) ∧
    (SingleElement.allocate failElem failElem () (.first ()) ()).1 =
      .second (failElem.allocate () ()).1 :=
  ⟨rfl,
    (c3_alternative_temporal failElem failElem () () []).2.1 () () () rfl⟩

theorem transfer_take (fromV toV : List (Option T)) :
    (transfer fromV toV).take (min fromV.length toV.length) =
      fromV.take (min fromV.length toV.length) := by
  unfold transfer
  have hn : min fromV.length toV.length ≤ fromV.length := min_le_left _ _
  rw [List.take_append_of_le_length (by rw [List.length_take]; omega)]
  rw [List.take_take, min_self]

/-- C4: `try_grow` of the fallback range composite on a First-tagged
handle.  If the capacity converts to the first backend's capacity type and
the in-place growth succeeds, the result is First-tagged and the second
backend is untouched.  On failure of that attempt (whether of the
conversion or of the in-place growth), the full new capacity is allocated
from the second backend, exactly `min(old_length, new_length)` elements
are copied from the first backend's view into the second backend's view,
the first backend's slot is deallocated, and a Second-tagged handle is
returned; consequently (for a backend whose `get` returns what `write`
wrote) the first `min(old_length, new_length)` elements of the migrated
view equal those of the old view. -/
theorem c4_fallback_grow_migration (capF : CapOps CF) (capS : CapOps CS)
    (F : RangeBE σF ηF CF T) (S : RangeBE σS ηS CS T)
    (sf : σF) (ss : σS) (hf : ηF) (c : CS) :
    (∀ cf f' hf', into_first capF capS c = some cf →
      F.try_grow sf hf cf = (f', some hf') →
      FallbackRange.try_grow capF capS F S (sf, ss) (.first hf) c =
        ((f', ss), some (.first hf'))) ∧
    (∀ cf f' ss' hs, into_first capF capS c = some cf →
      F.try_grow sf hf cf = (f', none) →
      S.allocate ss c = (ss', some hs) →
      FallbackRange.try_grow capF capS F S (sf, ss) (.first hf) c =
        ((F.deallocate f' hf,
          S.write ss' hs (transfer (F.get f' hf) (S.get ss' hs))),
          some (.second hs)) ∧
      (S.get (S.write ss' hs (transfer (F.get f' hf) (S.get ss' hs))) hs =
          transfer (F.get f' hf) (S.get ss' hs) →
        (S.get (S.write ss' hs (transfer (F.get f' hf) (S.get ss' hs)))
            hs).take (min (F.get f' hf).length (S.get ss' hs).length) =
          (F.get f' hf).take
            (min (F.get f' hf).length (S.get ss' hs).length))) ∧
    (∀ ss' hs, into_first capF capS c = none →
      S.allocate ss c = (ss', some hs) →
      FallbackRange.try_grow capF capS F S (sf, ss) (.first hf) c =
        ((F.deallocate sf hf,
          S.write ss' hs (transfer (F.get sf hf) (S.get ss' hs))),
          some (.second hs))) := by
  refine ⟨?_, ?_, ?_⟩
  · intro cf f' hf' hconv htg
    simp [FallbackRange.try_grow, hconv, htg]
  · intro cf f' ss' hs hconv htg hS
    refine ⟨by simp [FallbackRange.try_grow, hconv, htg, hS], ?_⟩
    intro hlaw
    rw [hlaw]
    exact transfer_take _ _
  · intro ss' hs hconv hS
    simp [FallbackRange.try_grow, hconv, hS]

/-- C4 witness: growing a 2-element first-backend buffer to capacity 4
with in-place growth failing migrates into the second backend, preserving
both elements. -/
theorem c4_witness :
    FallbackRange.try_grow capU8 capUsize bufRange bufRange
        ([some 1, some 2], []) (.first ()) 4 =
      (([some 1, some 2], [some 1, some 2, none, none]),
        some (.second ())) ∧
    (bufRange.get [some 1, some 2, none, none] ()).take 2 =
      (bufRange.get [some 1, some 2] ()).take 2 := by
  have h := (c4_fallback_grow_migration capU8 capUsize bufRange bufRange
    [some 1, some 2] [] () 4).2.1 4 [some 1, some 2]
    [none, none, none, none] () (by decide) rfl rfl
  exact ⟨h.1, h.2 rfl⟩

/-- C5: `try_shrink` of the fallback range composite.  On a Second-tagged
handle: when the new capacity is representable in the first backend's
capacity type and the first backend allocates it, the data migrates back —
`min` of the two view lengths is copied, the second backend's slot is
freed and the handle returned is First-tagged (with the same data
preservation as C4); when the capacity does not convert, or the first
backend's allocation fails, the second backend shrinks in place and the
result is Second-tagged.  On a First-tagged handle the first backend
shrinks in place. -/
theorem c5_fallback_shrink (capF : CapOps CF) (capS : CapOps CS)
    (F : RangeBE σF ηF CF T) (S : RangeBE σS ηS CS T)
    (sf : σF) (ss : σS) (c : CS) :
    (∀ cf f' hf hs, into_first capF capS c = some cf →
      F.allocate sf cf = (f', some hf) →
      FallbackRange.try_shrink capF capS F S (sf, ss) (.second hs) c =
        ((F.write f' hf (transfer (S.get ss hs) (F.get f' hf)),
          S.deallocate ss hs), some (.first hf)) ∧
      (F.get (F.write f' hf (transfer (S.get ss hs) (F.get f' hf))) hf =
          transfer (S.get ss hs) (F.get f' hf) →
        (F.get (F.write f' hf (transfer (S.get ss hs) (F.get f' hf)))
            hf).take (min (S.get ss hs).length (F.get f' hf).length) =
          (S.get ss hs).take
            (min (S.get ss hs).length (F.get f' hf).length))) ∧
    (∀ hs, into_first capF capS c = none →
      FallbackRange.try_shrink capF capS F S (sf, ss) (.second hs) c =
        ((sf, (S.try_shrink ss hs c).1),
          ((S.try_shrink ss hs c).2).map .second)) ∧
    (∀ cf f' hs, into_first capF capS c = some cf →
      F.allocate sf cf = (f', none) →
      FallbackRange.try_shrink capF capS F S (sf, ss) (.second hs) c =
        ((f', (S.try_shrink ss hs c).1),
          ((S.try_shrink ss hs c).2).map .second)) ∧
    (∀ cf hf, into_first capF capS c = some cf →
      FallbackRange.try_shrink capF capS F S (sf, ss) (.first hf) c =
        (((F.try_shrink sf hf cf).1, ss),
          ((F.try_shrink sf hf cf).2).map .first)) ∧
    (∀ hf, into_first capF capS c = none →
      FallbackRange.try_shrink capF capS F S (sf, ss) (.first hf) c =
        ((sf, ss), none)) := by
  refine ⟨?_, ?_, ?_, ?_, ?_⟩
  · intro cf f' hf hs hconv hA
    refine ⟨by simp [FallbackRange.try_shrink, hconv, hA], ?_⟩
    intro hlaw
    rw [hlaw]
    exact transfer_take _ _
  · intro hs hconv
    rcases hS : S.try_shrink ss hs c with ⟨s2, r⟩
    simp [FallbackRange.try_shrink, hconv, hS]
  · intro cf f' hs hconv hA
    rcases hS : S.try_shrink ss hs c with ⟨s2, r⟩
    simp [FallbackRange.try_shrink, hconv, hA, hS]
  · intro cf hf hconv
    rcases hF : F.try_shrink sf hf cf with ⟨f2, r⟩
    simp [FallbackRange.try_shrink, hconv, hF]
  · intro hf hconv
    simp [FallbackRange.try_shrink, hconv]

/-- C5 witness: shrinking a 3-element second-backend buffer to capacity 2
migrates back into the first backend, preserving the first two
elements. -/
theorem c5_witness :
    FallbackRange.try_shrink capU8 capUsize bufRange bufRange
        ([], [some 7, some 8, some 9]) (.second ()) 2 =
      (([some 7, some 8], [some 7, some 8, some 9]), some (.first ())) ∧
    (bufRange.get [some 7, some 8] ()).take 2 =
      (bufRange.get [some 7, some 8, some 9] ()).take 2 := by
  have h := (c5_fallback_shrink capU8 capUsize bufRange bufRange
    [] [some 7, some 8, some 9] 2).1 2 [none, none] () ()
    (by decide) rfl
  exact ⟨h.1, h.2 rfl⟩

theorem getD_set_ne (l : List Nat) (i j v d : Nat) (hij : i ≠ j) :
    (l.set i v).getD j d = l.getD j d := by
  rw [List.getD_eq_getD_get?, List.getD_eq_getD_get?, List.get?_set_ne _ _ hij]

theorem getD_set_self (l : List Nat) (i v d : Nat) (hi : i < l.length) :
    (l.set i v).getD i d = v := by
  rw [List.getD_eq_getD_get?, List.get?_set_eq_of_lt _ hi]
  rfl

theorem getD_range_map (N j : Nat) (f : Nat → Nat) (hj : j < N) :
    ((List.range N).map f).getD j 0 = f j := by
  rw [List.getD_eq_getD_get?, List.get?_map, List.get?_range hj]
  rfl

theorem freeChain_nil_inv {data : List Nat} {n : Nat}
    (h : FreeChain data n []) : n = INVALID_NEXT := by
  cases h; rfl

theorem freeChain_cons_inv {data : List Nat} {n x : Nat} {l : List Nat}
    (h : FreeChain data n (x :: l)) :
    n = x ∧ x ≠ INVALID_NEXT ∧ x < data.length ∧
      FreeChain data (data.getD x 0) l := by
  cases h with
  | cons hne hlt htail => exact ⟨rfl, hne, hlt, htail⟩

theorem freeChain_set_outside (j v : Nat) {data : List Nat} {n : Nat}
    {fl : List Nat} (h : FreeChain data n fl) :
    j ∉ fl → FreeChain (data.set j v) n fl := by
  induction h with
  | nil => intro _; exact .nil
  | @cons i l hne hlt htail ih =>
    intro hj
    have hji : j ≠ i := fun he => hj (he ▸ List.mem_cons_self i l)
    refine .cons hne (by simpa using hlt) ?_
    rw [getD_set_ne data j i v 0 hji]
    exact ih fun hm => hj (List.mem_cons_of_mem _ hm)

theorem tinv_alloc_step {N : Nat} {st : TrackingElement N} {live : List Nat}
    (hinv : TInv N st live) (hne : st.next ≠ INVALID_NEXT) :
    st.next < N ∧
    TInv N ⟨st.data.getD st.next 0, st.data⟩ (st.next :: live) := by
  obtain ⟨hN, hlen, fl, hchain, hnodup, hbound, hsum⟩ := hinv
  rcases fl with _ | ⟨x, l⟩
  · exact absurd (freeChain_nil_inv hchain) hne
  · obtain ⟨hnx, hxI, hxlt, htail⟩ := freeChain_cons_inv hchain
    subst hnx
    refine ⟨by omega, hN, hlen, l, htail, ?_, ?_, ?_⟩
    · have hperm : List.Perm (st.next :: (l ++ live)) (l ++ st.next :: live) :=
        List.perm_middle.symm
      exact hperm.nodup hnodup
    · intro y hy
      exact hbound y (List.perm_middle.mem_iff.mp hy)
    · simp only [List.length_cons] at hsum ⊢
      omega

theorem tinv_dealloc_step {N : Nat} {st : TrackingElement N} {live : List Nat}
    {h : Nat} (hinv : TInv N st live) (hmem : h ∈ live) :
    TInv N (TrackingElement.deallocate st h) (live.erase h) := by
  obtain ⟨hN, hlen, fl, hchain, hnodup, hbound, hsum⟩ := hinv
  have hhN : h < N := hbound h (List.mem_append_right fl hmem)
  have hhlen : h < st.data.length := by omega
  have hnotfl : h ∉ fl :=
    fun hh => (List.disjoint_of_nodup_append hnodup) hh hmem
  refine ⟨hN, by simp [TrackingElement.deallocate, hlen], h :: fl, ?_, ?_, ?_, ?_⟩
  · show FreeChain (st.data.set h st.next) h (h :: fl)
    refine .cons (by omega) (by simp [hlen, hhN]) ?_
    rw [getD_set_self st.data h st.next 0 hhlen]
    exact freeChain_set_outside h st.next hchain hnotfl
  · have h1 : List.Perm live (h :: live.erase h) := List.perm_cons_erase hmem
    have h2 : List.Perm (fl ++ live) (fl ++ (h :: live.erase h)) :=
      h1.append_left fl
    have h3 : List.Perm (fl ++ (h :: live.erase h)) (h :: (fl ++ live.erase h)) :=
      List.perm_middle
    have h4 := (h2.trans h3).nodup hnodup
    exact h4
  · intro y hy
    rcases List.mem_cons.mp hy with rfl | hy
    · exact hhN
    · rcases List.mem_append.mp hy with hy | hy
      · exact hbound y (List.mem_append_left live hy)
      · exact hbound y (List.mem_append_right fl (List.mem_of_mem_erase hy))
  · have herase : (live.erase h).length = live.length - 1 :=
      List.length_erase_of_mem hmem
    have hpos : 0 < live.length := List.length_pos.mpr
      (fun he => by rw [he] at hmem; exact List.not_mem_nil h hmem)
    simp only [List.length_cons, herase]
    omega

theorem tinv_perm {N : Nat} {st : TrackingElement N} {live live' : List Nat}
    (hp : List.Perm live live') (hinv : TInv N st live) : TInv N st live' := by
  obtain ⟨hN, hlen, fl, hchain, hnodup, hbound, hsum⟩ := hinv
  refine ⟨hN, hlen, fl, hchain, (hp.append_left fl).nodup hnodup, ?_, ?_⟩
  · intro y hy
    rcases List.mem_append.mp hy with hy | hy
    · exact hbound y (List.mem_append_left live hy)
    · exact hbound y (List.mem_append_right fl (hp.mem_iff.mpr hy))
  · rw [← hp.length_eq]
    exact hsum

theorem allocate_eq_of_next {N : Nat} {buf req : Shape} {st : TrackingElement N}
    (hfit : validate_layout req buf = true) (hne : st.next ≠ INVALID_NEXT) :
    TrackingElement.allocate buf req st =
      some (⟨st.data.getD st.next 0, st.data⟩, st.next) := by
  unfold TrackingElement.allocate
  simp [hfit, hne]

theorem allocate_inv {N : Nat} {buf req : Shape} {st st' : TrackingElement N}
    {h : Nat} (he : TrackingElement.allocate buf req st = some (st', h)) :
    validate_layout req buf = true ∧ st.next ≠ INVALID_NEXT ∧
    h = st.next ∧ st' = ⟨st.data.getD st.next 0, st.data⟩ := by
  unfold TrackingElement.allocate at he
  split at he
  · exact Option.noConfusion he
  · split at he
    · exact Option.noConfusion he
    · rename_i hfit hne
      injection he with he
      injection he with he1 he2
      exact ⟨by simpa using hfit, hne, he2.symm, he1.symm⟩

theorem allocate_none_of_full {N : Nat} (buf req : Shape)
    {st : TrackingElement N} {live : List Nat} (hinv : TInv N st live)
    (hfull : live.length = N) :
    TrackingElement.allocate buf req st = none := by
  obtain ⟨hN, hlen, fl, hchain, hnodup, hbound, hsum⟩ := hinv
  have hfl : fl = [] := List.length_eq_zero.mp (by omega)
  have hnext : st.next = INVALID_NEXT := freeChain_nil_inv (hfl ▸ hchain)
  unfold TrackingElement.allocate
  simp [hnext]

theorem tinv_allocs (buf req : Shape) (hfit : validate_layout req buf = true) :
    ∀ (k : Nat) {N : Nat} (st : TrackingElement N) (live : List Nat),
      TInv N st live → k + live.length ≤ N →
      ∃ st' hs, TrackingElement.allocs buf req st k = some (st', hs) ∧
        hs.length = k ∧ TInv N st' (hs ++ live) := by
  intro k
  induction k with
  | zero => exact fun st live hinv _ => ⟨st, [], rfl, rfl, hinv⟩
  | succ k ih =>
    intro N st live hinv hk
    have hcopy := hinv
    obtain ⟨hN, hlen, fl, hchain, hnodup, hbound, hsum⟩ := hcopy
    have hflne : fl ≠ [] := by
      intro hfl
      rw [hfl] at hsum
      simp at hsum
      omega
    have hne : st.next ≠ INVALID_NEXT := by
      intro hI
      rcases fl with _ | ⟨x, l⟩
      · exact hflne rfl
      · obtain ⟨hnx, hxI, _, _⟩ := freeChain_cons_inv hchain
        exact hxI (hnx ▸ hI)
    obtain ⟨hlt, hinv2⟩ := tinv_alloc_step hinv hne
    obtain ⟨st2, hs, heq, hlen2, hinv3⟩ :=
      ih ⟨st.data.getD st.next 0, st.data⟩ (st.next :: live) hinv2
        (by simp only [List.length_cons]; omega)
    refine ⟨st2, st.next :: hs, ?_, by simp [hlen2], ?_⟩
    · simp only [TrackingElement.allocs, allocate_eq_of_next hfit hne, heq]
    · exact tinv_perm List.perm_middle hinv3

theorem tinv_deallocs :
    ∀ (l : List Nat) {N : Nat} {st : TrackingElement N} {live : List Nat},
      TInv N st live → List.Perm l live →
      TInv N (TrackingElement.deallocs st l) [] := by
  intro l
  induction l with
  | nil =>
    intro N st live hinv hp
    have hl : live = [] := hp.symm.eq_nil
    subst hl
    exact hinv
  | cons h rest ih =>
    intro N st live hinv hp
    have hmem : h ∈ live := hp.mem_iff.mp (List.mem_cons_self h rest)
    have hinv2 := tinv_dealloc_step hinv hmem
    have hp2 : List.Perm rest (live.erase h) :=
      (hp.trans (List.perm_cons_erase hmem)).cons_inv
    exact ih hinv2 hp2

theorem freeChain_default_aux (N : Nat) (hN : N ≤ INVALID_NEXT) :
    ∀ k j, j + k = N → k ≠ 0 →
      FreeChain
        ((List.range N).map fun i => if i = N - 1 then INVALID_NEXT else i + 1)
        j (List.range' j k) := by
  intro k
  induction k with
  | zero => exact fun j _ hk => absurd rfl hk
  | succ k ih =>
    intro j hj _
    have hjN : j < N := by omega
    have hgd : ((List.range N).map
          fun i => if i = N - 1 then INVALID_NEXT else i + 1).getD j 0 =
        if j = N - 1 then INVALID_NEXT else j + 1 :=
      getD_range_map N j _ hjN
    by_cases hk0 : k = 0
    · subst hk0
      have hj1 : j = N - 1 := by omega
      refine .cons (by omega) (by simp [hjN]) ?_
      rw [hgd, if_pos hj1]
      exact .nil
    · have hj1 : j ≠ N - 1 := by omega
      refine .cons (by omega) (by simp [hjN]) ?_
      rw [hgd, if_neg hj1]
      exact ih (j + 1) (by omega) hk0

theorem tinv_default (N : Nat) (hN : N ≤ INVALID_NEXT) :
    TInv N (TrackingElement.default N) [] := by
  by_cases h0 : N = 0
  · subst h0
    exact ⟨hN, rfl, [], .nil, List.nodup_nil, by simp, rfl⟩
  · have hchain := freeChain_default_aux N hN N 0 (by omega) h0
    rw [← List.range_eq_range'] at hchain
    have hst : TrackingElement.default N =
        (⟨0, (List.range N).map
          fun i => if i = N - 1 then INVALID_NEXT else i + 1⟩ :
          TrackingElement N) := by
      unfold TrackingElement.default
      rw [if_neg h0]
    refine ⟨hN, ?_, List.range N, ?_, ?_, ?_, ?_⟩
    · rw [hst]; simp
    · rw [hst]; exact hchain
    · simp [List.nodup_range]
    · intro x hx
      simp only [List.append_nil] at hx
      exact List.mem_range.mp hx
    · simp

/-- C7: the tracking inline storage with `N` slots, for any shape that
fits one slot.  From the initial state (which satisfies the free-list
invariant with no live handles, as does any state obtained by a full
recycle): every sequence of up to `N` allocations succeeds; after `N`
allocations the next `allocate` fails with `AllocationFailed`; and after
deallocating the `N` returned handles in *any* order, the invariant with
no live handles is restored and up to `N` further allocations succeed
again — since the restored state satisfies this theorem's own hypothesis,
the cycle repeats indefinitely. -/
theorem c7_tracking_cycle (N : Nat) (buf req : Shape)
    (hfit : validate_layout req buf = true) (st : TrackingElement N)
    (hinv : TInv N st []) :
    (N ≤ INVALID_NEXT → TInv N (TrackingElement.default N) []) ∧
    (∀ k, k ≤ N → ∃ st' hs,
      TrackingElement.allocs buf req st k = some (st', hs) ∧ hs.length = k) ∧
    (∀ st' hs, TrackingElement.allocs buf req st N = some (st', hs) →
      TrackingElement.allocate buf req st' = none ∧
      ∀ hs', List.Perm hs' hs →
        TInv N (TrackingElement.deallocs st' hs') [] ∧
        ∀ k, k ≤ N → ∃ st2 hs2,
          TrackingElement.allocs buf req (TrackingElement.deallocs st' hs') k =
            some (st2, hs2) ∧ hs2.length = k) := by
  refine ⟨fun hN => tinv_default N hN, ?_, ?_⟩
  · intro k hk
    obtain ⟨st', hs, heq, hlenk, _⟩ :=
      tinv_allocs buf req hfit k st [] hinv (by simpa using hk)
    exact ⟨st', hs, heq, hlenk⟩
  · intro st' hs heq
    obtain ⟨st2, hs2, heq2, hlen2, hinv2⟩ :=
      tinv_allocs buf req hfit N st [] hinv (by simp)
    rw [heq] at heq2
    injection heq2 with heq2
    injection heq2 with ha hb
    subst ha
    subst hb
    have hinv3 : TInv N st' hs := by simpa using hinv2
    refine ⟨allocate_none_of_full buf req hinv3 hlen2, ?_⟩
    intro hs' hperm
    have hinv4 := tinv_deallocs hs' hinv3 hperm
    refine ⟨hinv4, ?_⟩
    intro k hk
    obtain ⟨st3, hs3, heq3, hlen3, _⟩ :=
      tinv_allocs buf req hfit k (TrackingElement.deallocs st' hs') []
        hinv4 (by simpa using hk)
    exact ⟨st3, hs3, heq3, hlen3⟩

/-- C7 witness: one slot, shape 1/1: the first allocation from the initial
state succeeds. -/
theorem c7_witness :
    validate_layout ⟨1, 1⟩ ⟨1, 1⟩ = true ∧
    ∃ st' hs,
      TrackingElement.allocs ⟨1, 1⟩ ⟨1, 1⟩ (TrackingElement.default 1) 1 =
        some (st', hs) ∧ hs.length = 1 :=
  ⟨by decide,
    (c7_tracking_cycle 1 ⟨1, 1⟩ ⟨1, 1⟩ (by decide) (TrackingElement.default 1)
      (tinv_default 1 (by decide))).2.1 1 (by decide)⟩

/-- C9: in every state reachable from construction by any sequence of
`allocate` and `deallocate` (deallocating only live handles), the
free-list chain starting at `next` consists of distinct in-bounds indices
terminated by the `INVALID_NEXT` sentinel, is disjoint from the set of
live handle indices, and its length plus the number of live handles equals
`N`; consequently the index popped by `allocate` (when the head is not the
sentinel) and the index of every live handle are strictly below `N`,
justifying the unchecked slot indexing in `allocate`, `get` and
`deallocate`. -/
theorem c9_tracking_invariant (N : Nat) (buf : Shape) (st : TrackingElement N)
    (live : List Nat) (hreach : Reach N buf st live) :
    (∃ fl, FreeChain st.data st.next fl ∧ fl.Nodup ∧ (∀ x ∈ fl, x < N) ∧
      (∀ x ∈ fl, x ∉ live) ∧ fl.length + live.length = N) ∧
    live.Nodup ∧ (∀ h ∈ live, h < N) ∧
    (st.next ≠ INVALID_NEXT → st.next < N) := by
  have hinv : TInv N st live := by
    induction hreach with
    | init hN => exact tinv_default N hN
    | @alloc st0 live0 req st1 hh hr heq ih =>
      obtain ⟨hfit, hne, hheq, hsteq⟩ := allocate_inv heq
      rw [hsteq, hheq]
      exact (tinv_alloc_step ih hne).2
    | dealloc hr hmem ih => exact tinv_dealloc_step ih hmem
  obtain ⟨hN, hlen, fl, hchain, hnodup, hbound, hsum⟩ := hinv
  refine ⟨⟨fl, hchain, (List.sublist_append_left fl live).nodup hnodup, ?_, ?_,
    hsum⟩, (List.sublist_append_right fl live).nodup hnodup, ?_, ?_⟩
  · exact fun x hx => hbound x (List.mem_append_left live hx)
  · exact fun x hx hxl => (List.disjoint_of_nodup_append hnodup) hx hxl
  · exact fun h hm => hbound h (List.mem_append_right fl hm)
  · intro hne
    rcases fl with _ | ⟨x, l⟩
    · exact absurd (freeChain_nil_inv hchain) hne
    · obtain ⟨hnx, _, hxlt, _⟩ := freeChain_cons_inv hchain
      omega

/-- C9 witness: the invariant at the freshly constructed one-slot
storage. -/
theorem c9_witness :
    (∃ fl, FreeChain (TrackingElement.default 1).data
        (TrackingElement.default 1).next fl ∧ fl.Nodup ∧
        (∀ x ∈ fl, x < 1) ∧ (∀ x ∈ fl, x ∉ ([] : List Nat)) ∧
        fl.length + ([] : List Nat).length = 1) ∧
    ([] : List Nat).Nodup ∧ (∀ h ∈ ([] : List Nat), h < 1) ∧
    ((TrackingElement.default 1).next ≠ INVALID_NEXT →
      (TrackingElement.default 1).next < 1) :=
  c9_tracking_invariant 1 ⟨1, 1⟩ (TrackingElement.default 1) []
    (Reach.init (by decide))



